import Mathlib

/-!
Verification of the extension lifecycle and dispatch core of the
`@lumjs/web-app` package (files `app.js` v1.3.0, `extension.js`,
`modules.js`, `ctx.js`).

The development contains three shallow embeddings:

* `WApp` — a sequential trace model of the `WebApp` class: event
  triggering is modelled as emitting a trace of `(target, event, args)`
  records, and the lifecycle methods (`init`, `start`, `_addExt`, `add`)
  are state transformers over the registration state.  This model is
  adequate for claims whose handlers do not call back into the app.
* `RT` — a fueled re-entrant interpreter for the same class, where event
  handlers are drawn from a small command language and may call back
  into `init`/`start`/`add` on the same application, mirroring the way a
  JavaScript handler closure can.  `triggerExt`'s loop is modelled as an
  index-based walk over the live extension array, exactly like the
  JavaScript `for..of` array iterator which picks up elements pushed
  during the iteration.
* `EC` / `XT` / `MR` — direct translations of `WebApp#extCall`,
  `WebExtension#setApp` and `ModuleRegistration#use`.
-/

namespace WApp

/-- An extension object as seen by the registration logic of `app.js`:
its JavaScript object identity is modelled by `key`, and `eid` is the
value of its (stable, registry-cached) `id` getter. -/
structure Ext where
  key : Nat
  eid : String
deriving DecidableEq, Repr

/-- The registration state of a `WebApp` instance (`app.js` constructor,
lines 58-91): the `CTX.EXTS_LIST` array, the `this.ext` id lookup
object, the `CTX.INITED` / `CTX.STARTED` latches, and the
`options.allExtFirst` flag fixed at construction. -/
structure St where
  extsList : List Ext
  extById : List (String × Ext)
  inited : Bool
  started : Bool
  allExtFirst : Bool
deriving DecidableEq, Repr

/-- State of a freshly constructed app before its constructor runs
`this.init(...)`: empty extension containers, both latches false. -/
def newApp (allExtFirst : Bool) : St :=
  { extsList := [], extById := [], inited := false, started := false
    allExtFirst := allExtFirst }

/-- A trace record: an event fired (with its arguments, of an arbitrary
type `α`) either on the application itself or on one extension. -/
inductive Ev (α : Type) where
  | appEv (name : String) (args : List α)
  | extEv (x : Ext) (name : String) (args : List α)
deriving DecidableEq, Repr

/-- Observable `this.trigger(name, ...args)` on the app: the event fires
on the application object itself. -/
def trigger (name : String) (args : List α) : List (Ev α) :=
  [.appEv name args]

/-- `WebApp#triggerExt` (`app.js` lines 252-259): fire the event on
every loaded extension, in `CTX.EXTS_LIST` order. -/
def triggerExt (s : St) (name : String) (args : List α) : List (Ev α) :=
  s.extsList.map (fun x => .extEv x name args)

/-- `WebApp#triggerThisExt` (`app.js` lines 285-290): `this.trigger`
then `this.triggerExt`. -/
def triggerThisExt (s : St) (name : String) (args : List α) : List (Ev α) :=
  trigger name args ++ triggerExt s name args

/-- `WebApp#triggerExtThis` (`app.js` lines 298-303): `this.triggerExt`
then `this.trigger`. -/
def triggerExtThis (s : St) (name : String) (args : List α) : List (Ev α) :=
  triggerExt s name args ++ trigger name args

/-- `WebApp#triggerAll` (`app.js` lines 267-277): dispatch via
`triggerExtThis` when `options.allExtFirst` is set, else via
`triggerThisExt`. -/
def triggerAll (s : St) (name : String) (args : List α) : List (Ev α) :=
  if s.allExtFirst then triggerExtThis s name args else triggerThisExt s name args

/-- Diagnostic messages routed to `console.error`. -/
inductive LogMsg where
  | duplicateExtension (x : Ext)
deriving DecidableEq, Repr

/-- `WebApp#_addExt` (`app.js` lines 139-154): if `this.ext[id]` is
already set, log a duplicate when it is a different object and return
with the state unchanged; otherwise push onto `CTX.EXTS_LIST` and
record in `this.ext`. -/
def addExt (s : St) (x : Ext) : St × List LogMsg :=
  match s.extById.lookup x.eid with
  | some y => (s, if y = x then [] else [.duplicateExtension x])
  | none =>
    ({ s with extsList := s.extsList ++ [x], extById := s.extById ++ [(x.eid, x)] }, [])

/-- Register a list of extensions in order (the `Array` branch of
`WebApp#add`, lines 197-204, recursing into the instance branch for
each element; `_addExt` never throws, so every element is attempted). -/
def addExts (s : St) (xs : List Ext) : St × List LogMsg :=
  match xs with
  | [] => (s, [])
  | x :: rest =>
    let (s1, l1) := addExt s x
    let (s2, l2) := addExts s1 rest
    (s2, l1 ++ l2)

end WApp

namespace WApp

/-- Claim C1: with extensions A, B, C added in that order,
`triggerThisExt` fires [Application, A, B, C], `triggerExtThis` fires
[A, B, C, Application], and `triggerAll` coincides with
`triggerExtThis` when `allExtFirst` is true and with `triggerThisExt`
when it is false — for every event name and argument list. -/
theorem trigger_dispatch_order_c1 {α : Type} (o : Bool) (A B C : Ext)
    (ev : String) (args : List α)
    (hAB : A.eid ≠ B.eid) (hAC : A.eid ≠ C.eid) (hBC : B.eid ≠ C.eid) :
    (addExt (addExt (addExt (newApp o) A).1 B).1 C).1.extsList = [A, B, C] ∧
    triggerThisExt (addExt (addExt (addExt (newApp o) A).1 B).1 C).1 ev args =
      [.appEv ev args, .extEv A ev args, .extEv B ev args, .extEv C ev args] ∧
    triggerExtThis (addExt (addExt (addExt (newApp o) A).1 B).1 C).1 ev args =
      [.extEv A ev args, .extEv B ev args, .extEv C ev args, .appEv ev args] ∧
    triggerAll (addExt (addExt (addExt (newApp o) A).1 B).1 C).1 ev args =
      (if o then
        triggerExtThis (addExt (addExt (addExt (newApp o) A).1 B).1 C).1 ev args
      else
        triggerThisExt (addExt (addExt (addExt (newApp o) A).1 B).1 C).1 ev args) := by
  have h1 : (B.eid == A.eid) = false := by
    simp [beq_eq_false_iff_ne]; exact fun h => hAB h.symm
  have h2 : (C.eid == A.eid) = false := by
    simp [beq_eq_false_iff_ne]; exact fun h => hAC h.symm
  have h3 : (C.eid == B.eid) = false := by
    simp [beq_eq_false_iff_ne]; exact fun h => hBC h.symm
  simp [newApp, addExt, List.lookup, h1, h2, h3, triggerThisExt, triggerExtThis,
    triggerAll, trigger, triggerExt]

/-- Witness for C1 at concrete extensions, event name and arguments. -/
theorem trigger_dispatch_order_c1_witness :
    (WApp.Ext.mk 0 "a").eid ≠ (WApp.Ext.mk 1 "b").eid ∧
    (addExt (addExt (addExt (newApp true) ⟨0, "a"⟩).1 ⟨1, "b"⟩).1 ⟨2, "c"⟩).1.extsList
      = [⟨0, "a"⟩, ⟨1, "b"⟩, ⟨2, "c"⟩] :=
  ⟨by decide,
    (trigger_dispatch_order_c1 (α := Nat) true ⟨0, "a"⟩ ⟨1, "b"⟩ ⟨2, "c"⟩ "x" [1, 2]
      (by decide) (by decide) (by decide)).1⟩

end WApp

namespace WApp

/-- One public call made on a live application: `app.init(...args)`,
`app.start()`, or `app.add(ext)` with a freshly constructed extension
instance (whose own construction-time `init` event happened inside its
constructor; `add` runs `ext.setApp(this)` and then `_addExt`). -/
inductive Call (α : Type) where
  | init (args : List α)
  | start
  | addInst (x : Ext)
deriving DecidableEq, Repr

/-- Is this call an `init()` call? -/
def Call.isInit : Call α → Bool
  | .init _ => true
  | _ => false

/-- Is this call a `start()` call? -/
def Call.isStart : Call α → Bool
  | .start => true
  | _ => false

/-- One step of the sequential semantics.  `init` (`app.js` lines
107-118): when `CTX.INITED` is set fire compound `reinit`, else fire
`init` on the app alone and set the latch.  `start` (lines 432-445):
when `CTX.STARTED` is set fire compound `restart`, else fire compound
`start` and set the latch (both events argument-free).  `addInst`
(lines 222-229): `setApp(this)` fires `start` on the incoming
app-less extension when the app is already started, then `_addExt`
registers it. -/
def stepCall (s : St) : Call α → St × List (Ev α)
  | .init args =>
    if s.inited then (s, triggerAll s "reinit" args)
    else ({ s with inited := true }, trigger "init" args)
  | .start =>
    if s.started then (s, triggerAll s "restart" [])
    else ({ s with started := true }, triggerAll s "start" [])
  | .addInst x =>
    ((addExt s x).1,
      if s.started then [.extEv x "start" ([] : List α)] else [])

/-- Run a sequence of calls, collecting the events fired by each call. -/
def run (s : St) : List (Call α) → St × List (List (Ev α))
  | [] => (s, [])
  | c :: cs =>
    let p := stepCall s c
    let q := run p.1 cs
    (q.1, p.2 :: q.2)

/-- The state reached after a sequence of calls. -/
def runSt (s : St) (cs : List (Call α)) : St := (run s cs).1

theorem runSt_nil (s : St) : runSt s ([] : List (Call α)) = s := rfl

theorem runSt_cons (s : St) (c : Call α) (cs : List (Call α)) :
    runSt s (c :: cs) = runSt (stepCall s c).1 cs := rfl

theorem addExt_fst_inited (s : St) (x : Ext) : (addExt s x).1.inited = s.inited := by
  unfold addExt
  cases s.extById.lookup x.eid <;> simp

theorem addExt_fst_started (s : St) (x : Ext) : (addExt s x).1.started = s.started := by
  unfold addExt
  cases s.extById.lookup x.eid <;> simp

theorem stepCall_fst_inited (s : St) (c : Call α) :
    (stepCall s c).1.inited = (s.inited || c.isInit) := by
  cases c with
  | init args =>
    by_cases h : s.inited <;> simp [stepCall, h, Call.isInit]
  | start =>
    by_cases h : s.started <;> simp [stepCall, h, Call.isInit]
  | addInst x =>
    simp [stepCall, Call.isInit, addExt_fst_inited]

theorem stepCall_fst_started (s : St) (c : Call α) :
    (stepCall s c).1.started = (s.started || c.isStart) := by
  cases c with
  | init args =>
    by_cases h : s.inited <;> simp [stepCall, h, Call.isStart]
  | start =>
    by_cases h : s.started <;> simp [stepCall, h, Call.isStart]
  | addInst x =>
    simp [stepCall, Call.isStart, addExt_fst_started]

theorem runSt_inited (s : St) (cs : List (Call α)) :
    (runSt s cs).inited = (s.inited || cs.any Call.isInit) := by
  induction cs generalizing s with
  | nil => simp [runSt_nil]
  | cons c rest ih =>
    rw [runSt_cons, ih, stepCall_fst_inited]
    simp [Bool.or_assoc]

theorem runSt_started (s : St) (cs : List (Call α)) :
    (runSt s cs).started = (s.started || cs.any Call.isStart) := by
  induction cs generalizing s with
  | nil => simp [runSt_nil]
  | cons c rest ih =>
    rw [runSt_cons, ih, stepCall_fst_started]
    simp [Bool.or_assoc]

theorem run_output_at (s : St) (cs : List (Call α)) (d : Call α) (i : Nat)
    (hi : i < cs.length) :
    (run s cs).2.getD i [] = (stepCall (runSt s (cs.take i)) (cs.getD i d)).2 := by
  induction cs generalizing s i with
  | nil => simp at hi
  | cons c rest ih =>
    cases i with
    | zero => simp [run, runSt_nil]
    | succ j =>
      have hj : j < rest.length := by simpa using hi
      have := ih (stepCall s c).1 j hj
      simpa [run, runSt_cons] using this

end WApp

namespace WApp

/-- Claim C2: over any sequence of calls on one application (starting
from the pre-construction state, the constructor's own `init(...)`
being the first call of the sequence): an `init()` call fires `init` on
the application only when no earlier `init()` occurred and compound
`reinit` otherwise, regardless of arguments; a `start()` call fires
compound `start` when no earlier `start()` occurred and compound
`restart` otherwise; and after any prefix the `inited`/`started`
latches are exactly "some init/start call occurred in that prefix", so
each flips from false to true exactly once and never reverts. -/
theorem init_start_latch_c2 {α : Type} (o : Bool) (cs : List (Call α)) (i : Nat)
    (hi : i < cs.length) :
    ((runSt (newApp o) (cs.take i)).inited = (cs.take i).any Call.isInit
      ∧ (runSt (newApp o) (cs.take i)).started = (cs.take i).any Call.isStart)
    ∧ (∀ j, j ≤ i →
        ((runSt (newApp o) (cs.take j)).inited = true →
          (runSt (newApp o) (cs.take i)).inited = true)
        ∧ ((runSt (newApp o) (cs.take j)).started = true →
          (runSt (newApp o) (cs.take i)).started = true))
    ∧ (∀ args, cs.getD i Call.start = Call.init args →
        (run (newApp o) cs).2.getD i [] =
          (if (cs.take i).any Call.isInit then
            triggerAll (runSt (newApp o) (cs.take i)) "reinit" args
          else [Ev.appEv "init" args]))
    ∧ (cs.getD i (Call.init []) = Call.start →
        (run (newApp o) cs).2.getD i [] =
          (if (cs.take i).any Call.isStart then
            triggerAll (runSt (newApp o) (cs.take i)) "restart" []
          else triggerAll (runSt (newApp o) (cs.take i)) "start" [])) := by
  have hpref : ∀ (p : Call α → Bool) (j : Nat), j ≤ i →
      (∃ x ∈ cs.take j, p x = true) → ∃ x ∈ cs.take i, p x = true := by
    intro p j hj hany
    have hsub : cs.take j ⊆ cs.take i := by
      have : cs.take j = (cs.take i).take j := by
        rw [List.take_take, Nat.min_eq_left hj]
      rw [this]
      exact List.take_subset _ _
    rcases hany with ⟨x, hx, hpx⟩
    exact ⟨x, hsub hx, hpx⟩
  refine ⟨⟨?_, ?_⟩, ?_, ?_, ?_⟩
  · rw [runSt_inited]; simp [newApp]
  · rw [runSt_started]; simp [newApp]
  · intro j hj
    constructor
    · intro h
      rw [runSt_inited] at h ⊢
      simp [newApp] at h ⊢
      exact hpref Call.isInit j hj h
    · intro h
      rw [runSt_started] at h ⊢
      simp [newApp] at h ⊢
      exact hpref Call.isStart j hj h
  · intro args hget
    rw [run_output_at (newApp o) cs Call.start i hi, hget]
    have hin : (runSt (newApp o) (cs.take i)).inited = (cs.take i).any Call.isInit := by
      rw [runSt_inited]; simp [newApp]
    by_cases h : (cs.take i).any Call.isInit
    · simp [stepCall, hin, h]
    · simp [stepCall, hin, h, trigger]
  · intro hget
    rw [run_output_at (newApp o) cs (Call.init []) i hi, hget]
    have hst : (runSt (newApp o) (cs.take i)).started = (cs.take i).any Call.isStart := by
      rw [runSt_started]; simp [newApp]
    by_cases h : (cs.take i).any Call.isStart
    · simp [stepCall, hst, h]
    · simp [stepCall, hst, h]

/-- Witness for C2 at a concrete call sequence: init, start, init,
start — the third call (index 2) is a re-init. -/
theorem init_start_latch_c2_witness :
    2 < ([Call.init [5], Call.start, Call.init [7], Call.start] : List (Call Nat)).length
    ∧ ((runSt (newApp false)
        (([Call.init [5], Call.start, Call.init [7], Call.start] : List (Call Nat)).take 2)).inited
          = (([Call.init [5], Call.start, Call.init [7], Call.start] : List (Call Nat)).take 2).any
              Call.isInit
      ∧ (runSt (newApp false)
        (([Call.init [5], Call.start, Call.init [7], Call.start] : List (Call Nat)).take 2)).started
          = (([Call.init [5], Call.start, Call.init [7], Call.start] : List (Call Nat)).take 2).any
              Call.isStart) :=
  ⟨by decide,
    (init_start_latch_c2 false [Call.init [5], Call.start, Call.init [7], Call.start] 2
      (by decide)).1⟩

end WApp

namespace WApp

theorem lookup_append_of_some (l1 l2 : List (String × Ext)) (k : String) (v : Ext)
    (h : l1.lookup k = some v) : (l1 ++ l2).lookup k = some v := by
  induction l1 with
  | nil => simp [List.lookup] at h
  | cons p t ih =>
    obtain ⟨a, b⟩ := p
    by_cases hk : k = a
    · subst hk
      simp only [List.cons_append, List.lookup, beq_self_eq_true] at h ⊢
      exact h
    · have hba : (k == a) = false := by simp [beq_eq_false_iff_ne]; exact hk
      simp only [List.cons_append, List.lookup, hba] at h ⊢
      exact ih h

theorem lookup_append_of_none (l1 l2 : List (String × Ext)) (k : String)
    (h : l1.lookup k = none) : (l1 ++ l2).lookup k = l2.lookup k := by
  induction l1 with
  | nil => simp
  | cons p t ih =>
    obtain ⟨a, b⟩ := p
    by_cases hk : k = a
    · subst hk
      simp only [List.lookup, beq_self_eq_true] at h
      exact Option.noConfusion h
    · have hba : (k == a) = false := by simp [beq_eq_false_iff_ne]; exact hk
      simp only [List.cons_append, List.lookup, hba] at h ⊢
      exact ih h

theorem lookup_none_iff_not_key (l : List (String × Ext)) (k : String) :
    l.lookup k = none ↔ k ∉ l.map Prod.fst := by
  induction l with
  | nil => simp [List.lookup]
  | cons p t ih =>
    obtain ⟨a, b⟩ := p
    by_cases hk : k = a
    · subst hk
      simp [List.lookup]
    · have hba : (k == a) = false := by simp [beq_eq_false_iff_ne]; exact hk
      simp [List.lookup, hba, ih, hk]

/-- The C5 invariant: the extension list has no duplicates, every listed
extension is found in `this.ext` under its id, and every entry of
`this.ext` is a listed extension stored under its own id. -/
def Consistent (s : St) : Prop :=
  s.extsList.Nodup
  ∧ (∀ x ∈ s.extsList, s.extById.lookup x.eid = some x)
  ∧ (∀ p ∈ s.extById, p.2 ∈ s.extsList ∧ p.2.eid = p.1)

/-- Internal strengthening of `Consistent` with key uniqueness, used for
the induction. -/
def ConsistentK (s : St) : Prop :=
  Consistent s ∧ (s.extById.map Prod.fst).Nodup

theorem consistentK_newApp (o : Bool) : ConsistentK (newApp o) := by
  refine ⟨⟨?_, ?_, ?_⟩, ?_⟩ <;> simp [newApp, Consistent]

theorem consistentK_addExt (s : St) (x : Ext) (h : ConsistentK s) :
    ConsistentK (addExt s x).1 := by
  obtain ⟨⟨hnd, hfwd, hbwd⟩, hkeys⟩ := h
  unfold addExt
  cases hl : s.extById.lookup x.eid with
  | some y => exact ⟨⟨hnd, hfwd, hbwd⟩, hkeys⟩
  | none =>
    have hknotin : x.eid ∉ s.extById.map Prod.fst :=
      (lookup_none_iff_not_key s.extById x.eid).mp hl
    have hxnotin : x ∉ s.extsList := by
      intro hx
      rw [hfwd x hx] at hl
      exact Option.noConfusion hl
    refine ⟨⟨?_, ?_, ?_⟩, ?_⟩
    · exact hnd.append (List.nodup_singleton x) (fun b hb hb2 => by
        simp only [List.mem_singleton] at hb2
        subst hb2
        exact hxnotin hb)
    · intro z hz
      simp only [List.mem_append, List.mem_singleton] at hz
      cases hz with
      | inl hz => exact lookup_append_of_some _ _ _ _ (hfwd z hz)
      | inr hz =>
        subst hz
        rw [lookup_append_of_none _ _ _ hl]
        simp [List.lookup]
    · intro p hp
      simp only [List.mem_append, List.mem_singleton] at hp
      cases hp with
      | inl hp =>
        obtain ⟨h1, h2⟩ := hbwd p hp
        exact ⟨by simp [h1], h2⟩
      | inr hp =>
        subst hp
        simp
    · rw [List.map_append]
      exact hkeys.append (List.nodup_singleton _) (fun b hb hb2 => by
        simp only [List.map_cons, List.map_nil, List.mem_singleton] at hb2
        subst hb2
        exact hknotin hb)

theorem consistentK_addExts (s : St) (xs : List Ext) (h : ConsistentK s) :
    ConsistentK (addExts s xs).1 := by
  induction xs generalizing s with
  | nil => simpa [addExts] using h
  | cons x rest ih =>
    simpa [addExts] using ih (addExt s x).1 (consistentK_addExt s x h)

theorem addExts_append (s : St) (l1 l2 : List Ext) :
    (addExts s (l1 ++ l2)).1 = (addExts (addExts s l1).1 l2).1 := by
  induction l1 generalizing s with
  | nil => simp [addExts]
  | cons x rest ih => simp [addExts, ih]

/-- Claim C5: after every sequence of `add` calls the extension list and
the by-id map are consistent (mutual containment, no duplicate list
entries); re-adding the same object under the same id is a no-op with
no diagnostic; adding a different object whose id is in use leaves the
state unchanged and logs a duplicate; and in a batch add, such a
duplicate does not abort the registration of the remaining items. -/
theorem add_registration_c5 (o : Bool) (adds : List Ext) (x y : Ext) (more : List Ext)
    (hx : (addExts (newApp o) adds).1.extById.lookup x.eid = some x)
    (hy : y.eid = x.eid) (hxy : y ≠ x) :
    (∀ zs : List Ext, Consistent (addExts (newApp o) zs).1)
    ∧ addExt (addExts (newApp o) adds).1 x = ((addExts (newApp o) adds).1, [])
    ∧ addExt (addExts (newApp o) adds).1 y
        = ((addExts (newApp o) adds).1, [.duplicateExtension y])
    ∧ (addExts (newApp o) (adds ++ y :: more)).1 = (addExts (newApp o) (adds ++ more)).1 := by
  have hyl : (addExts (newApp o) adds).1.extById.lookup y.eid = some x := by
    rw [hy]; exact hx
  have hstep : addExt (addExts (newApp o) adds).1 y
      = ((addExts (newApp o) adds).1, [.duplicateExtension y]) := by
    unfold addExt
    rw [hyl]
    simp [Ne.symm hxy]
  refine ⟨?_, ?_, hstep, ?_⟩
  · intro zs
    exact (consistentK_addExts (newApp o) zs (consistentK_newApp o)).1
  · unfold addExt
    rw [hx]
    simp
  · rw [addExts_append, addExts_append]
    have : (addExts (addExts (newApp o) adds).1 (y :: more)).1
        = (addExts (addExt (addExts (newApp o) adds).1 y).1 more).1 := by
      simp [addExts]
    rw [this, hstep]

/-- Witness for C5 at a concrete registration history: extensions
(0,"a") and (1,"b") are registered; re-adding (0,"a") is a no-op and
adding the different object (9,"a") is logged and skipped without
aborting the rest of the batch. -/
theorem add_registration_c5_witness :
    (addExts (newApp false) [⟨0, "a"⟩, ⟨1, "b"⟩]).1.extById.lookup
        (WApp.Ext.mk 0 "a").eid = some ⟨0, "a"⟩
    ∧ (WApp.Ext.mk 9 "a").eid = (WApp.Ext.mk 0 "a").eid
    ∧ (WApp.Ext.mk 9 "a") ≠ (WApp.Ext.mk 0 "a")
    ∧ (addExts (newApp false) ([⟨0, "a"⟩, ⟨1, "b"⟩] ++ ⟨9, "a"⟩ :: [⟨2, "c"⟩])).1
        = (addExts (newApp false) ([⟨0, "a"⟩, ⟨1, "b"⟩] ++ [⟨2, "c"⟩])).1 :=
  ⟨by decide, by decide, by decide,
    (add_registration_c5 false [⟨0, "a"⟩, ⟨1, "b"⟩] ⟨0, "a"⟩ ⟨9, "a"⟩ [⟨2, "c"⟩]
      (by decide) (by decide) (by decide)).2.2.2⟩

end WApp

namespace EC

/-- First-order JavaScript data values used as call arguments and
return values in `WebApp#extCall`. -/
inductive Val where
  | undefV
  | vb (b : Bool)
  | vn (n : Nat)
  | vs (s : String)
  | vother
deriving DecidableEq, Repr

/-- A callback passed to `extCall`: receives the extension as its first
argument, then the call arguments. -/
def Callback : Type := WApp.Ext → List Val → Val

/-- The methods defined on each extension object: `meths e m` is the
method named `m` of extension `e`, when `typeof e[m] === 'function'`. -/
def Meths : Type := WApp.Ext → String → Option (List Val → Val)

/-- The `rv` option of `extCall` as the code inspects it (`app.js`
lines 363-371): a `Map` instance, the literal `true`, or anything
else (absent, `false`, junk — all ignored alike). -/
inductive RvField where
  | rmap (mid : Nat)
  | rtrue
  | rnone
deriving DecidableEq, Repr

/-- The `fn` option of `extCall` (`app.js` lines 373-380): a function,
a string, or anything else (triggering the `args.shift()` fallback). -/
inductive FnField where
  | ff (f : Callback)
  | fs (s : String)
  | fabsent

/-- A JavaScript value as it can arrive in `extCall`'s parameter list:
the constructors follow the `typeof`/`instanceof` tests the code
performs (`Map`, boolean, plain options object, string, function,
anything else). -/
inductive JVal where
  | jundefV
  | jbool (b : Bool)
  | jnat (n : Nat)
  | jstr (s : String)
  | jmap (mid : Nat)
  | jfun (f : Callback)
  | jobj (rv : RvField) (fnf : FnField)
  | jother

/-- Lower an argument value to the first-order data universe (functions
and structured values are opaque data from the callee's viewpoint). -/
def toVal : JVal → Val
  | .jundefV => .undefV
  | .jbool b => .vb b
  | .jnat n => .vn n
  | .jstr s => .vs s
  | _ => .vother

/-- The collector selected by the `rv` handling: none, an externally
supplied `Map` (identified by `mid`; `retMap` stays false), or a fresh
`Map` created for `rv === true` (`retMap` set). -/
inductive Coll where
  | cnone
  | cext (mid : Nat)
  | cfresh
deriving DecidableEq, Repr

/-- JavaScript `args.shift()`: yields `undefined` on an empty list. -/
def shift : List JVal → JVal × List JVal
  | [] => (.jundefV, [])
  | a :: rest => (a, rest)

/-- The argument normalization of `extCall` (`app.js` lines 352-381):
wrap a leading `Map`/boolean into `{rv: fn}`; from an options object
read `rv` (Map → use it, `true` → fresh map) and `fn` (function or
string → call target, else shift the next positional argument).
Returns the collector, the resolved call target and the remaining
call arguments. -/
def resolveTarget (fn : JVal) (args : List JVal) : Coll × JVal × List JVal :=
  let fn1 : JVal :=
    match fn with
    | .jmap m => .jobj (.rmap m) .fabsent
    | .jbool b => .jobj (if b then .rtrue else .rnone) .fabsent
    | x => x
  match fn1 with
  | .jobj rvf fnf =>
    let coll : Coll :=
      match rvf with
      | .rmap m => .cext m
      | .rtrue => .cfresh
      | .rnone => .cnone
    (match fnf with
    | .ff f => (coll, .jfun f, args)
    | .fs s => (coll, .jstr s, args)
    | .fabsent =>
      let p := shift args
      (coll, p.1, p.2))
  | x => (.cnone, x, args)

/-- The per-extension results of the dispatch loop (`app.js` lines
399-406): one `(extension, return value)` pair per loaded extension,
in registration order. -/
def callResults (g : Callback) (exts : List WApp.Ext) (args : List Val) :
    List (WApp.Ext × Val) :=
  exts.map (fun e => (e, g e args))

/-- The wrapper built for a string call target (`app.js` lines
383-393): call the named method when the extension has one, otherwise
do nothing (the call expression then yields `undefined`). -/
def methodFn (meths : Meths) (meth : String) : Callback :=
  fun e as =>
    match meths e meth with
    | some m => m as
    | none => .undefV

/-- The `set` calls performed on the collector: none when no collector
was selected. -/
def setsOf (coll : Coll) (entries : List (WApp.Ext × Val)) : List (WApp.Ext × Val) :=
  match coll with
  | .cnone => []
  | _ => entries

/-- The return value (`app.js` line 408): the fresh map when
`retMap` was set, otherwise `this`. -/
inductive ECRet where
  | rself
  | rmapOf (entries : List (WApp.Ext × Val))
deriving DecidableEq, Repr

/-- Select the return value per `return retMap ? retVals : this`. -/
def retOf (coll : Coll) (entries : List (WApp.Ext × Val)) : ECRet :=
  match coll with
  | .cfresh => .rmapOf entries
  | _ => .rself

/-- Outcome of `extCall`: normal return carrying the (unchanged)
application state, the returned value, the entries written to the
collector, and the extensions visited by the loop; or the
`TypeError` thrown for an invalid call target (before the loop
runs, hence no extensions visited). -/
inductive ECResult where
  | ok (s : WApp.St) (ret : ECRet) (sets : List (WApp.Ext × Val)) (visited : List WApp.Ext)
  | err (s : WApp.St) (visited : List WApp.Ext)
deriving DecidableEq, Repr

/-- The tail of `extCall` after argument normalization (`app.js`
lines 383-410): dispatch on the resolved call target, run the loop
for a string or function target, throw for anything else. -/
def finishCall (s : WApp.St) (meths : Meths) (coll : Coll) (fn2 : JVal)
    (args2 : List JVal) : ECResult :=
  match fn2 with
  | .jstr meth =>
    .ok s (retOf coll (callResults (methodFn meths meth) s.extsList (args2.map toVal)))
      (setsOf coll (callResults (methodFn meths meth) s.extsList (args2.map toVal)))
      s.extsList
  | .jfun f =>
    .ok s (retOf coll (callResults f s.extsList (args2.map toVal)))
      (setsOf coll (callResults f s.extsList (args2.map toVal)))
      s.extsList
  | _ => .err s []

/-- `WebApp#extCall` (`app.js` lines 352-410). -/
def extCall (s : WApp.St) (meths : Meths) (fn : JVal) (args : List JVal) : ECResult :=
  finishCall s meths (resolveTarget fn args).1 (resolveTarget fn args).2.1
    (resolveTarget fn args).2.2

/-- A resolved call target that is neither a string nor a function. -/
def isBadTarget : JVal → Bool
  | .jstr _ => false
  | .jfun _ => false
  | _ => true

end EC

namespace EC

/-- A one-extension application state used for concrete evaluations. -/
def sampleSt : WApp.St :=
  { extsList := [⟨0, "a"⟩], extById := [("a", ⟨0, "a"⟩)], inited := true, started := true, allExtFirst := false }

/-- An extension-method table where no extension defines any method. -/
def noMeths : Meths := fun _ _ => none

/-- Counterexample to claim C6: with one registered extension and a
result-collecting sink requested via an externally supplied Map (`rv`
is a `Map` instance), `extCall` fills the map but still returns the
Application itself (`retMap` is only set for `rv === true`), so the
claimed "that mapping is returned instead" fails for this input. -/
theorem extCall_return_c6_counterexample :
    extCall sampleSt noMeths (.jmap 5) [.jfun (fun _ _ => .vn 7)]
      = .ok sampleSt .rself [(⟨0, "a"⟩, .vn 7)] [⟨0, "a"⟩]
    ∧ ECRet.rself ≠ ECRet.rmapOf [(⟨0, "a"⟩, .vn 7)] :=
  ⟨rfl, by decide⟩

/-- Claim C6 as amended: `extCall` returns the Application itself by
default and also when the sink is an externally supplied Map (which is
filled in place with one entry per registered extension); only when
`rv` is the literal `true` is the freshly created mapping returned,
whose keys are exactly the registered extensions in registration order
and whose values are each call's return value `f(extension, ...args)`;
in every case the application's registration state is unaffected. -/
theorem extCall_return_c6 (s : WApp.St) (meths : Meths) (f : Callback)
    (args : List JVal) (mid : Nat) :
    extCall s meths (.jfun f) args = .ok s .rself [] s.extsList
    ∧ extCall s meths (.jobj .rtrue (.ff f)) args
        = .ok s (.rmapOf (callResults f s.extsList (args.map toVal)))
            (callResults f s.extsList (args.map toVal)) s.extsList
    ∧ (callResults f s.extsList (args.map toVal)).map Prod.fst = s.extsList
    ∧ extCall s meths (.jmap mid) (JVal.jfun f :: args)
        = .ok s .rself (callResults f s.extsList (args.map toVal)) s.extsList := by
  refine ⟨?_, ?_, ?_, ?_⟩
  · simp [extCall, resolveTarget, finishCall, retOf, setsOf]
  · simp [extCall, resolveTarget, finishCall, retOf, setsOf]
  · simp [callResults, Function.comp_def]
  · simp [extCall, resolveTarget, shift, finishCall, retOf, setsOf]

end EC

namespace EC

/-- Claim C7: for a string call target, every extension lacking the
named method is silently skipped (no error) and a collecting sink
records `undefined` for it, while every extension having the method
gets it invoked with the supplied arguments; a function call target
receives the extension as first argument followed by the call
arguments; and any other resolved call target raises a `TypeError`
before any extension is visited. -/
theorem extCall_target_c7 (s : WApp.St) (meths : Meths) (meth : String)
    (f : Callback) (args : List JVal) (fnv : JVal) (argv : List JVal)
    (hbad : isBadTarget (resolveTarget fnv argv).2.1 = true) :
    extCall s meths (.jstr meth) args = .ok s .rself [] s.extsList
    ∧ extCall s meths (.jobj .rtrue (.fs meth)) args
        = .ok s
            (.rmapOf (s.extsList.map (fun e =>
              (e, match meths e meth with
                  | some m => m (args.map toVal)
                  | none => Val.undefV))))
            (s.extsList.map (fun e =>
              (e, match meths e meth with
                  | some m => m (args.map toVal)
                  | none => Val.undefV)))
            s.extsList
    ∧ extCall s meths (.jobj .rtrue (.ff f)) args
        = .ok s (.rmapOf (s.extsList.map (fun e => (e, f e (args.map toVal)))))
            (s.extsList.map (fun e => (e, f e (args.map toVal)))) s.extsList
    ∧ extCall s meths fnv argv = .err s [] := by
  refine ⟨?_, ?_, ?_, ?_⟩
  · simp [extCall, resolveTarget, finishCall, retOf, setsOf]
  · simp [extCall, resolveTarget, finishCall, retOf, setsOf, callResults, methodFn]
  · simp [extCall, resolveTarget, finishCall, retOf, setsOf, callResults]
  · unfold extCall
    cases h2 : (resolveTarget fnv argv).2.1 <;>
      simp [isBadTarget, h2] at hbad ⊢ <;> simp [finishCall]

/-- Witness for C7: a numeric call target resolves to neither a string
nor a function, so the concrete call throws with no extension
visited. -/
theorem extCall_target_c7_witness :
    isBadTarget (resolveTarget (.jnat 3) []).2.1 = true
    ∧ extCall sampleSt noMeths (.jnat 3) [] = .err sampleSt [] :=
  ⟨by decide,
    (extCall_target_c7 sampleSt noMeths "foo" (fun _ _ => .undefV) [] (.jnat 3) []
      (by decide)).2.2.2⟩

end EC

namespace XT

/-- The `app` argument of `WebExtension#setApp` as the code type-tests
it: an `App` instance (carrying its started flag), `null`/`undefined`
(nil), or any other non-App value. -/
inductive AppArg where
  | appRef (started : Bool)
  | nullArg
  | badArg
deriving DecidableEq, Repr

/-- The extension state relevant to `setApp`: the current value of the
`$app` property (`none` models the property never having been
assigned). -/
structure ExtSt where
  appProp : Option AppArg
deriving DecidableEq, Repr

/-- The `isNil(this.$app)` test of `extension.js` line 82: true for an
unassigned property and for an assigned `null`. -/
def isNilApp : Option AppArg → Bool
  | none => true
  | some .nullArg => true
  | some _ => false

/-- Events triggered on the extension by `setApp`. -/
inductive XEv where
  | evStart
  | evRestart
deriving DecidableEq, Repr

/-- `WebExtension#setApp` (`extension.js` lines 76-101): when the
argument is an `App` whose started flag is set, trigger `start` on the
extension if no app had been set yet and `restart` otherwise; when the
argument is not an `App`, throw `TypeError` if `validate` was
requested; in all non-throwing cases assign `$app`. -/
def setApp (e : ExtSt) (app : AppArg) (validate : Bool) :
    Except String (ExtSt × List XEv) :=
  match app with
  | .appRef started =>
    .ok ({ appProp := some app },
      if started then
        (if isNilApp e.appProp then [XEv.evStart] else [XEv.evRestart])
      else [])
  | _ =>
    if validate then .error "Invalid App instance"
    else .ok ({ appProp := some app }, [])

/-- Claim C10: calling `e.setApp(a)` with an application `a` whose
started flag is true triggers `start` on `e` when no app had been set
on `e` before, and `restart` when one had; with the started flag false
it triggers no event. -/
theorem setApp_events_c10 (e : ExtSt) (v : Bool) :
    (isNilApp e.appProp = true →
      setApp e (.appRef true) v
        = .ok ({ appProp := some (.appRef true) }, [XEv.evStart]))
    ∧ (isNilApp e.appProp = false →
      setApp e (.appRef true) v
        = .ok ({ appProp := some (.appRef true) }, [XEv.evRestart]))
    ∧ setApp e (.appRef false) v = .ok ({ appProp := some (.appRef false) }, []) := by
  refine ⟨?_, ?_, ?_⟩
  · intro h; simp [setApp, h]
  · intro h; simp [setApp, h]
  · simp [setApp]

/-- Witness for C10: a fresh extension (no `$app` yet) attached to a
started application receives `start`. -/
theorem setApp_events_c10_witness :
    isNilApp (ExtSt.mk none).appProp = true
    ∧ setApp (ExtSt.mk none) (.appRef true) false
        = .ok ({ appProp := some (.appRef true) }, [XEv.evStart]) :=
  ⟨by decide, (setApp_events_c10 (ExtSt.mk none) false).1 (by decide)⟩

end XT

namespace MR

/-- The JavaScript shape of a module definition, following the type
tests in `ModuleRegistration#use` (`modules.js` lines 252-318):
an `Extension` instance, an `Extension` subclass constructor, any
other function, a plain object, or the `App` itself. -/
inductive MShape where
  | extInst
  | extClass
  | plainFn
  | plainObj
  | application
deriving DecidableEq, Repr

/-- A module definition: its identity (`key`), its shape, and whether
it carries its own `use` / `register` function-valued properties. -/
structure Mod where
  key : Nat
  shape : MShape
  hasUse : Bool
  hasRegister : Bool
deriving DecidableEq, Repr

/-- The `typeof mod === 'function'` test. -/
def Mod.isFun (m : Mod) : Bool :=
  match m.shape with
  | .extClass => true
  | .plainFn => true
  | _ => false

/-- The `mod instanceof Ext` test. -/
def Mod.isExtInst (m : Mod) : Bool :=
  match m.shape with
  | .extInst => true
  | _ => false

/-- The `Ext.isPrototypeOf(mod)` test on a function. -/
def Mod.isExtClass (m : Mod) : Bool :=
  match m.shape with
  | .extClass => true
  | _ => false

/-- The `mod instanceof App` test. -/
def Mod.isApp (m : Mod) : Bool :=
  match m.shape with
  | .application => true
  | _ => false

/-- The two maps of a `ModuleRegistry` (`modules.js` lines 40-48):
`mods` (id to module) and `modIds` (module to id). -/
structure RegSt where
  mods : List (String × Mod)
  modIds : List (Mod × String)
deriving DecidableEq, Repr

/-- JavaScript `Map.prototype.set`: replace the value under an existing
key, otherwise append a new entry. -/
def setA {κ ν : Type} [BEq κ] (l : List (κ × ν)) (k : κ) (v : ν) : List (κ × ν) :=
  match l with
  | [] => [(k, v)]
  | (a, b) :: t => if a == k then (k, v) :: t else (a, b) :: setA t k v

theorem lookup_setA {κ ν : Type} [BEq κ] [LawfulBEq κ]
    (l : List (κ × ν)) (k : κ) (v : ν) : (setA l k v).lookup k = some v := by
  induction l with
  | nil => simp [setA, List.lookup]
  | cons p t ih =>
    obtain ⟨a, b⟩ := p
    by_cases h : a = k
    · subst h
      simp [setA, List.lookup]
    · have h1 : (a == k) = false := by simp [beq_eq_false_iff_ne]; exact h
      have h2 : (k == a) = false := by
        simp [beq_eq_false_iff_ne]; exact fun hk => h hk.symm
      simp only [setA, h1, if_false, List.lookup, h2]
      exact ih

/-- The external id sources consulted by `use(id)` when no id was
passed: the module's own `id` getter (Extension instances), the
application's own id registry (when the module is the `App`), the
captured application's registry, and the constructor-name fallback. -/
structure REnv where
  extId : Mod → String
  mintApp : Mod → String
  mintReg : Mod → String
  cname : Mod → String

/-- The id resolution ladder of `use` (`modules.js` lines 259-277).
`hasApp` is whether `reg.app` holds a captured `App` instance. -/
def resolveId (E : REnv) (hasApp : Bool) (mod : Mod) : Option String → String
  | some i => i
  | none =>
    if mod.isExtInst then E.extId mod
    else if mod.isApp then E.mintApp mod
    else if hasApp then E.mintReg mod
    else E.cname mod

/-- The registration hooks `use` can fire after the duplicate check. -/
inductive Hook where
  | modUse
  | register
  | appAdd
  | callFun
deriving DecidableEq, Repr

/-- The hook dispatch ladder of `use` (`modules.js` lines 284-312). -/
def useHooks (hasApp : Bool) (mod : Mod) : List Hook :=
  if mod.hasUse then [.modUse]
  else if mod.isFun then
    (if mod.isExtClass then
      (if hasApp then (if mod.hasRegister then [.register] else [.appAdd]) else [])
    else [.callFun])
  else if hasApp && mod.isExtInst then [.appAdd]
  else []

/-- `ModuleRegistration#use` (`modules.js` lines 252-318): resolve the
id, throw `RangeError` when it is already a key of `reg.mods` (before
any hook runs and without touching either map), otherwise fire the
appropriate hook and record the module in both maps. -/
def use (E : REnv) (st : RegSt) (hasApp : Bool) (mod : Mod) (idArg : Option String) :
    Except String (RegSt × List Hook) :=
  let id := resolveId E hasApp mod idArg
  if (st.mods.lookup id).isSome then
    .error "Module already registered"
  else
    .ok ({ mods := setA st.mods id mod, modIds := setA st.modIds mod id },
      useHooks hasApp mod)

/-- Claim C9: `use(id)` fails with a duplicate-id error exactly when
the resolved id is already a key of the registry's module map — the
error is raised before any hook runs and both maps are left untouched
(the error outcome carries no state change and no hook) — and on a
successful commit the module is recorded in both the id-to-module map
and the module-to-id map under the resolved id, whichever hook branch
fired. -/
theorem module_use_c9 (E : REnv) (st : RegSt) (hasApp : Bool) (mod : Mod)
    (idArg : Option String) :
    ((st.mods.lookup (resolveId E hasApp mod idArg)).isSome = true →
      use E st hasApp mod idArg = .error "Module already registered")
    ∧ ((st.mods.lookup (resolveId E hasApp mod idArg)).isSome = false →
      use E st hasApp mod idArg
        = .ok ({ mods := setA st.mods (resolveId E hasApp mod idArg) mod,
                 modIds := setA st.modIds mod (resolveId E hasApp mod idArg) },
          useHooks hasApp mod)
      ∧ (setA st.mods (resolveId E hasApp mod idArg) mod).lookup
          (resolveId E hasApp mod idArg) = some mod
      ∧ (setA st.modIds mod (resolveId E hasApp mod idArg)).lookup mod
          = some (resolveId E hasApp mod idArg)) := by
  constructor
  · intro h
    simp [use, h]
  · intro h
    refine ⟨?_, lookup_setA _ _ _, lookup_setA _ _ _⟩
    simp [use, h]

/-- Witness for C9: an empty registry accepts a first module under the
explicit id "m", and a registry already holding "m" rejects it. -/
theorem module_use_c9_witness :
    ((RegSt.mk [] []).mods.lookup
        (resolveId (REnv.mk (fun _ => "x") (fun _ => "x") (fun _ => "x") (fun _ => "x"))
          false (Mod.mk 0 .plainObj false false) (some "m"))).isSome = false
    ∧ use (REnv.mk (fun _ => "x") (fun _ => "x") (fun _ => "x") (fun _ => "x"))
        (RegSt.mk [] []) false (Mod.mk 0 .plainObj false false) (some "m")
        = .ok ({ mods := [("m", Mod.mk 0 .plainObj false false)],
                 modIds := [(Mod.mk 0 .plainObj false false, "m")] }, []) :=
  ⟨by decide,
    by
      have h := (module_use_c9
        (REnv.mk (fun _ => "x") (fun _ => "x") (fun _ => "x") (fun _ => "x"))
        (RegSt.mk [] []) false (Mod.mk 0 .plainObj false false) (some "m")).2
          (by decide)
      exact h.1⟩

end MR

namespace RT

/-- Runtime state for the re-entrant model of `WebApp`: the
`CTX.EXTS_LIST` array and `this.ext` map (extensions named by their
object key), the two latches, the `allExtFirst` option, and one
boolean closure variable that handler code may use as a once-guard. -/
structure RSt where
  exts : List Nat
  extById : List (String × Nat)
  inited : Bool
  started : Bool
  allExtFirst : Bool
  flag : Bool
deriving DecidableEq, Repr

/-- A trace record of the re-entrant model: an event fired on the app
or on one extension (the lifecycle events involved carry no
arguments). -/
inductive REv where
  | appEv (name : String)
  | extEv (k : Nat) (name : String)
deriving DecidableEq, Repr

/-- Commands a handler body may run against the same application:
re-enter `init()` or `start()`, call `add` with a fresh extension
subclass (key and id of the instance it constructs), or run a command
guarded by a captured "only once" flag, as in
`if (!done) { done = true; ... }`. -/
inductive Cmd where
  | callInit
  | callStart
  | addNew (k : Nat) (eid : String)
  | once (c : Cmd)

/-- The event handlers installed on the application and on each
extension (an extension's `setupHook` wiring plus any `on`
registrations), fixed for a scenario. -/
structure HSpec where
  appH : String → List Cmd
  extH : Nat → String → List Cmd

mutual

/-- Run one handler command; re-entrant calls consume fuel. -/
def runCmd (H : HSpec) (fuel : Nat) (s : RSt) (c : Cmd) : RSt × List REv :=
  match fuel with
  | 0 => (s, [])
  | fuel+1 =>
    match c with
    | .callInit => rtInit H fuel s
    | .callStart => rtStart H fuel s
    | .addNew k eid => rtAdd H fuel s k eid
    | .once c =>
      if s.flag then (s, [])
      else runCmd H fuel { s with flag := true } c

/-- Run a handler body (a list of commands) in order. -/
def runCmds (H : HSpec) (fuel : Nat) (s : RSt) (cs : List Cmd) : RSt × List REv :=
  match fuel with
  | 0 => (s, [])
  | fuel+1 =>
    match cs with
    | [] => (s, [])
    | c :: rest =>
      let p := runCmd H fuel s c
      let q := runCmds H fuel p.1 rest
      (q.1, p.2 ++ q.2)

/-- `this.trigger(e)` on the application: record the event and run the
application's handlers for it. -/
def appTrigger (H : HSpec) (fuel : Nat) (s : RSt) (e : String) : RSt × List REv :=
  match fuel with
  | 0 => (s, [])
  | fuel+1 =>
    let p := runCmds H fuel s (H.appH e)
    (p.1, .appEv e :: p.2)

/-- `ext.trigger(e)` on extension `k`: record the event and run that
extension's handlers for it. -/
def extTrigger (H : HSpec) (fuel : Nat) (s : RSt) (k : Nat) (e : String) :
    RSt × List REv :=
  match fuel with
  | 0 => (s, [])
  | fuel+1 =>
    let p := runCmds H fuel s (H.extH k e)
    (p.1, .extEv k e :: p.2)

/-- The `for (const ext of this[CTX.EXTS_LIST])` loop of `triggerExt`
(`app.js` lines 252-259), modelled exactly like the JavaScript array
iterator: the index is checked against the length of the *live* array
on every step, so extensions pushed by a handler during the iteration
are visited too. -/
def extLoop (H : HSpec) (fuel : Nat) (s : RSt) (i : Nat) (e : String) :
    RSt × List REv :=
  match fuel with
  | 0 => (s, [])
  | fuel+1 =>
    if h : i < s.exts.length then
      let p := extTrigger H fuel s (s.exts.get ⟨i, h⟩) e
      let q := extLoop H fuel p.1 (i+1) e
      (q.1, p.2 ++ q.2)
    else (s, [])

/-- `triggerAll` in the re-entrant model (`app.js` lines 267-303):
`trigger` then the extension loop, or the reverse when `allExtFirst`
is set. -/
def rtTriggerAll (H : HSpec) (fuel : Nat) (s : RSt) (e : String) : RSt × List REv :=
  match fuel with
  | 0 => (s, [])
  | fuel+1 =>
    if s.allExtFirst then
      let p := extLoop H fuel s 0 e
      let q := appTrigger H fuel p.1 e
      (q.1, p.2 ++ q.2)
    else
      let p := appTrigger H fuel s e
      let q := extLoop H fuel p.1 0 e
      (q.1, p.2 ++ q.2)

/-- `WebApp#init` in the re-entrant model (`app.js` lines 107-118):
note the source fires the first-time `init` event *before* setting the
`CTX.INITED` latch. -/
def rtInit (H : HSpec) (fuel : Nat) (s : RSt) : RSt × List REv :=
  match fuel with
  | 0 => (s, [])
  | fuel+1 =>
    if s.inited then rtTriggerAll H fuel s "reinit"
    else
      let p := appTrigger H fuel s "init"
      ({ p.1 with inited := true }, p.2)

/-- `WebApp#start` in the re-entrant model (`app.js` lines 432-445):
the source fires the compound first-time `start` event *before*
setting the `CTX.STARTED` latch. -/
def rtStart (H : HSpec) (fuel : Nat) (s : RSt) : RSt × List REv :=
  match fuel with
  | 0 => (s, [])
  | fuel+1 =>
    if s.started then rtTriggerAll H fuel s "restart"
    else
      let p := rtTriggerAll H fuel s "start"
      ({ p.1 with started := true }, p.2)

/-- `WebApp#add` with an `Extension` subclass in the re-entrant model
(`app.js` lines 214-221 and `extension.js` constructor): `new ext(this)`
triggers `init` on the fresh instance, its `setApp(this)` triggers
`start` on it when the application's started latch is already set, and
then `_addExt` registers it (no-op when the id is taken). -/
def rtAdd (H : HSpec) (fuel : Nat) (s : RSt) (k : Nat) (eid : String) :
    RSt × List REv :=
  match fuel with
  | 0 => (s, [])
  | fuel+1 =>
    let p := extTrigger H fuel s k "init"
    let q := if p.1.started then extTrigger H fuel p.1 k "start" else (p.1, [])
    let s3 :=
      match q.1.extById.lookup eid with
      | some _ => q.1
      | none => { q.1 with exts := q.1.exts ++ [k], extById := q.1.extById ++ [(eid, k)] }
    (s3, p.2 ++ q.2)

end

end RT

namespace RT

/-- Scenario for C3 (init): the application's own `init` handler calls
`app.init()` back, guarded so it only re-enters once. -/
def hReinit : HSpec :=
  { appH := fun e => if e = "init" then [.once .callInit] else [],
    extH := fun _ _ => [] }

/-- Scenario for C3 (start): one extension whose `start` handler calls
`app.start()` back, guarded so it only re-enters once. -/
def hRestart : HSpec :=
  { appH := fun _ => [],
    extH := fun k e => if k = 0 ∧ e = "start" then [.once .callStart] else [] }

/-- A pre-construction application state (no extensions, nothing
fired). -/
def freshSt : RSt :=
  { exts := [], extById := [], inited := false, started := false
    allExtFirst := false, flag := false }

/-- An initialized but not yet started application holding one
extension with key 0 and id "a". -/
def startSt : RSt :=
  { exts := [0], extById := [("a", 0)], inited := true, started := false
    allExtFirst := false, flag := false }

/-- Counterexample to claim C3.  The claim asserts that a re-entrant
`init()`/`start()` made from inside a handler running during the first
`init()`/`start()` observes the post-flip latch and takes the
`reinit`/`restart` branch.  In the source the latch is assigned only
*after* the first-time event dispatch returns, so: with a handler that
re-enters `init()` once during the first `init()`, the `init` event
fires twice and `reinit` never fires (the claim predicts one `init`
and one `reinit` dispatch) — and likewise for `start`/`restart`. -/
theorem latch_prestate_c3_counterexample :
    (rtInit hReinit 20 freshSt).2.count (REv.appEv "init") = 2
    ∧ (rtInit hReinit 20 freshSt).2.count (REv.appEv "reinit") = 0
    ∧ (rtStart hRestart 20 startSt).2.count (REv.appEv "start") = 2
    ∧ (rtStart hRestart 20 startSt).2.count (REv.appEv "restart") = 0
    ∧ (rtStart hRestart 20 startSt).2.count (REv.extEv 0 "restart") = 0 := by
  refine ⟨?_, ?_, ?_, ?_, ?_⟩ <;> rfl

/-- Claim C3 as amended: the `inited`/`started` latches are assigned
only after the corresponding first-time `init`/`start` dispatch
completes, so a re-entrant `init()`/`start()` from inside a handler
running during the first call observes the *pre-flip* state and
re-runs the first-time branch (firing `init`/`start` again); only
calls made after the first call has returned take the
`reinit`/`restart` branch. -/
theorem latch_prestate_c3 :
    rtInit hReinit 20 freshSt
      = ({ exts := [], extById := [], inited := true, started := false
           allExtFirst := false, flag := true },
         [REv.appEv "init", REv.appEv "init"])
    ∧ (rtInit hReinit 20 (rtInit hReinit 20 freshSt).1).2 = [REv.appEv "reinit"]
    ∧ rtStart hRestart 20 startSt
      = ({ exts := [0], extById := [("a", 0)], inited := true, started := true
           allExtFirst := false, flag := true },
         [REv.appEv "start", REv.extEv 0 "start", REv.appEv "start", REv.extEv 0 "start"])
    ∧ (rtStart hRestart 20 (rtStart hRestart 20 startSt).1).2
        = [REv.appEv "restart", REv.extEv 0 "restart"] := by
  refine ⟨?_, ?_, ?_, ?_⟩ <;> rfl

/-- Scenario for C4: the `start` handler of extension 0 calls
`app.add` with a fresh extension subclass constructing instance `k`
with id `eid`. -/
def hC4 (k : Nat) (eid : String) : HSpec :=
  { appH := fun _ => [],
    extH := fun j e => if j = 0 ∧ e = "start" then [.addNew k eid] else [] }

/-- Claim C4: when extension 0's `start` handler calls
`app.add(anotherExtension)` during the application's first `start()`,
then before that `start()` returns the new extension is present in the
extension list, its own `init` event has fired, and its own `start`
event has fired as well — the latter because the still-running
`triggerExt` loop iterates the live array and so reaches the extension
pushed during the iteration. -/
theorem reentrant_add_c4 (k : Nat) (eid : String) (hk : k ≠ 0) (he : eid ≠ "a") :
    rtStart (hC4 k eid) 12 startSt
      = ({ exts := [0, k], extById := [("a", 0), (eid, k)],
           inited := true, started := true, allExtFirst := false, flag := false },
         [REv.appEv "start", REv.extEv 0 "start", REv.extEv k "init", REv.extEv k "start"])
    ∧ k ∈ (rtStart (hC4 k eid) 12 startSt).1.exts
    ∧ REv.extEv k "init" ∈ (rtStart (hC4 k eid) 12 startSt).2
    ∧ REv.extEv k "start" ∈ (rtStart (hC4 k eid) 12 startSt).2 := by
  have hA : (hC4 k eid).extH k "init" = [] := by simp [hC4]
  have hB : (hC4 k eid).extH k "start" = [] := by simp [hC4, hk]
  have hC : (hC4 k eid).extH 0 "start" = [Cmd.addNew k eid] := by simp [hC4]
  have hD : (hC4 k eid).appH "start" = [] := rfl
  have h2 : extTrigger (hC4 k eid) 5 ⟨[0], [("a", 0)], true, false, false, false⟩ k "init"
      = (⟨[0], [("a", 0)], true, false, false, false⟩, [REv.extEv k "init"]) := by
    simp [extTrigger, runCmds, hA]
  have h3 : rtAdd (hC4 k eid) 6 ⟨[0], [("a", 0)], true, false, false, false⟩ k eid
      = (⟨[0, k], [("a", 0), (eid, k)], true, false, false, false⟩, [REv.extEv k "init"]) := by
    have hbe : (eid == "a") = false := by simp [beq_eq_false_iff_ne]; exact he
    simp [rtAdd, h2, List.lookup, hbe]
  have h4 : runCmds (hC4 k eid) 8 ⟨[0], [("a", 0)], true, false, false, false⟩
        [Cmd.addNew k eid]
      = (⟨[0, k], [("a", 0), (eid, k)], true, false, false, false⟩, [REv.extEv k "init"]) := by
    simp [runCmds, runCmd, h3]
  have h5 : extTrigger (hC4 k eid) 9 ⟨[0], [("a", 0)], true, false, false, false⟩ 0 "start"
      = (⟨[0, k], [("a", 0), (eid, k)], true, false, false, false⟩,
         [REv.extEv 0 "start", REv.extEv k "init"]) := by
    simp [extTrigger, hC, h4]
  have h6 : extTrigger (hC4 k eid) 8 ⟨[0, k], [("a", 0), (eid, k)], true, false, false, false⟩
        k "start"
      = (⟨[0, k], [("a", 0), (eid, k)], true, false, false, false⟩, [REv.extEv k "start"]) := by
    simp [extTrigger, runCmds, hB]
  have h7 : extLoop (hC4 k eid) 9 ⟨[0, k], [("a", 0), (eid, k)], true, false, false, false⟩
        1 "start"
      = (⟨[0, k], [("a", 0), (eid, k)], true, false, false, false⟩, [REv.extEv k "start"]) := by
    simp [extLoop, h6]
  have h8 : extLoop (hC4 k eid) 10 ⟨[0], [("a", 0)], true, false, false, false⟩ 0 "start"
      = (⟨[0, k], [("a", 0), (eid, k)], true, false, false, false⟩,
         [REv.extEv 0 "start", REv.extEv k "init", REv.extEv k "start"]) := by
    simp [extLoop, h5, h6, h7]
  have h9 : appTrigger (hC4 k eid) 10 ⟨[0], [("a", 0)], true, false, false, false⟩ "start"
      = (⟨[0], [("a", 0)], true, false, false, false⟩, [REv.appEv "start"]) := by
    simp [appTrigger, runCmds, hD]
  have h10 : rtTriggerAll (hC4 k eid) 11 ⟨[0], [("a", 0)], true, false, false, false⟩ "start"
      = (⟨[0, k], [("a", 0), (eid, k)], true, false, false, false⟩,
         [REv.appEv "start", REv.extEv 0 "start", REv.extEv k "init", REv.extEv k "start"]) := by
    simp [rtTriggerAll, h9, h8]
  have hfin : rtStart (hC4 k eid) 12 startSt
      = ({ exts := [0, k], extById := [("a", 0), (eid, k)],
           inited := true, started := true, allExtFirst := false, flag := false },
         [REv.appEv "start", REv.extEv 0 "start", REv.extEv k "init",
          REv.extEv k "start"]) := by
    rw [show startSt = (⟨[0], [("a", 0)], true, false, false, false⟩ : RSt) from rfl]
    simp [rtStart, h10]
  refine ⟨hfin, ?_, ?_, ?_⟩ <;> simp [hfin]

/-- Witness for C4 with the concrete added extension (1, "b"). -/
theorem reentrant_add_c4_witness :
    (1 : Nat) ≠ 0 ∧ ("b" : String) ≠ "a"
    ∧ 1 ∈ (rtStart (hC4 1 "b") 12 startSt).1.exts
    ∧ REv.extEv 1 "start" ∈ (rtStart (hC4 1 "b") 12 startSt).2 :=
  ⟨by decide, by decide,
    (reentrant_add_c4 1 "b" (by decide) (by decide)).2.1,
    (reentrant_add_c4 1 "b" (by decide) (by decide)).2.2.2⟩

end RT

namespace DF

/-- A JavaScript runtime error relevant to `dataFor`. -/
inductive JsErr where
  | referenceError (name : String)
deriving DecidableEq, Repr

/-- The identifiers bound in the top-level module scope of `app.js`
(v1.3.0): its `require` bindings, the destructured helpers, the module
constants and the two classes.  `SYM_DATA_MAPS` is not among them. -/
def appJsScope : List String :=
  ["CTX", "core", "WC", "WS", "makeObservable", "def", "F", "S", "B", "isObj",
   "DEFAULT_OPTIONS", "WebApp", "Extension", "WAP", "EV_PROTO_ALIASES"]

/-- Strict-mode evaluation of a free identifier: a `ReferenceError`
unless the name is bound in the enclosing scope. -/
def resolveIdent (n : String) : Except JsErr Unit :=
  if n ∈ appJsScope then .ok () else .error (.referenceError n)

/-- A key of the `dataFor` store: any JavaScript value, including the
application itself. -/
inductive DKey where
  | selfApp
  | kv (v : EC.Val)
deriving DecidableEq, Repr

/-- The `CTX.DATA_MAPS` store initialized by the constructor (`app.js`
line 63): keys mapped to the identity of their per-key `Map`, plus an
allocator for fresh `Map` identities. -/
structure DSt where
  dataMaps : List (DKey × Nat)
  nextMap : Nat
deriving DecidableEq, Repr

/-- `WebApp#dataFor` (`app.js` lines 461-474) as written: the body
begins with `const maps = this[SYM_DATA_MAPS];`, and `SYM_DATA_MAPS`
is a free identifier in `app.js` — the constructor initializes the
store under `CTX.DATA_MAPS` instead — so in strict mode the property
access throws a `ReferenceError` before the lookup-or-create logic
(translated below it) can run. -/
def dataFor (s : DSt) (key : DKey) : Except JsErr (Nat × DSt) :=
  match resolveIdent "SYM_DATA_MAPS" with
  | .error e => .error e
  | .ok _ =>
    match s.dataMaps.lookup key with
    | some m => .ok (m, s)
    | none =>
      .ok (s.nextMap,
        { dataMaps := s.dataMaps ++ [(key, s.nextMap)], nextMap := s.nextMap + 1 })

/-- Claim C8 fails on the code as a code bug: for every key (of any
type, the application itself included) and every store state,
`dataFor` throws `ReferenceError: SYM_DATA_MAPS is not defined`
instead of returning a per-key stable `Map` — the method's own doc
comment and the constructor (which initializes `CTX.DATA_MAPS`,
otherwise unused) show the claim describes the intent. -/
theorem dataFor_reference_error_c8 (s : DSt) (key : DKey) :
    dataFor s key = .error (.referenceError "SYM_DATA_MAPS") := rfl

end DF
